import Mathlib

/-!
Verification development for the gdelt_stars pipeline
(`src/fetch_gdelt.py`, `src/enrich_embeddings.py`, `src/cluster_analysis.py`,
`src/visualize_stars.py`).

The Python sources are shallowly embedded: pure data transformations become
Lean functions over lists; pandas DataFrames are modelled either as typed
row lists (when only fixed columns matter) or as a column-list plus
association-list rows (when column presence matters); the mutation behaviour
of the enrichment stages is modelled with an explicit heap of DataFrame
values.  Machine floats are modelled with exact rationals; text handling is
modelled for ASCII text (Python's `str.lower`, `\w`, `\s` coincide with the
ASCII model there).  External collaborators (the HTTP session, the
sentence-embedding model, t-SNE) are parameters of the embedding.
-/

/-! ## Generic list helpers -/

/-- Remove duplicates keeping the first occurrence of each element, with an
accumulator of elements already seen.  Models the first-insertion key order
of a Python `dict` / `collections.Counter`, and `pandas.Series.unique`
(which also keeps first occurrences). -/
def dedupFirstAux {α : Type} [DecidableEq α] : List α → List α → List α
  | [], _ => []
  | a :: as, seen =>
    if a ∈ seen then dedupFirstAux as seen else a :: dedupFirstAux as (a :: seen)

/-- Duplicate removal keeping first occurrences. -/
def dedupFirst {α : Type} [DecidableEq α] (l : List α) : List α := dedupFirstAux l []

/-- Position of the first occurrence of `a` in `l` (length of `l` if absent).
Used to state the first-encountered tie-breaking order. -/
def firstIdx {α : Type} [DecidableEq α] : List α → α → Nat
  | [], _ => 0
  | b :: t, a => if b = a then 0 else firstIdx t a + 1

/-- Python `sep.join(xs)`. -/
def pyJoin (sep : String) : List String → String
  | [] => ""
  | [a] => a
  | a :: b :: rest => a ++ sep ++ pyJoin sep (b :: rest)

/-- One step of a stable descending insertion sort on the count key: the new
element `a` is placed before the first element whose key is less than or
equal to its own, so that among equal keys earlier-inserted elements stay
first. -/
def insertDesc (key : String → Nat) (a : String) : List String → List String
  | [] => [a]
  | b :: bs => if key b ≤ key a then a :: b :: bs else b :: insertDesc key a bs

/-- Stable sort by descending `key`, inserting elements from last to first so
that the original order is kept among equal keys. -/
def sortDesc (key : String → Nat) : List String → List String
  | [] => []
  | a :: as => insertDesc key a (sortDesc key as)

/-- `collections.Counter(ws).most_common(n)` (keys only): the `n` items with
the largest multiplicity in `ws`, ties broken by first-encountered order.
Python documents `most_common` as equivalent to a stable descending sort of
the counter's items (which are in first-insertion order) by count; it is
modelled here by a stable descending insertion sort over the
first-occurrence list. -/
def mostCommon (ws : List String) (n : Nat) : List String :=
  (sortDesc (fun w => ws.count w) (dedupFirst ws)).take n

/-! ## Keyword extraction (`cluster_analysis.extract_keywords_from_text`,
lines 72-105) -/

/-- The character substitution of `re.sub(r'[^\w\s]', ' ', text)`: characters
that are neither word characters (`[A-Za-z0-9_]`) nor whitespace become a
space; everything else is kept. -/
def keepWordChar (c : Char) : Char :=
  if c.isAlphanum || c = '_' || c.isWhitespace then c else ' '

/-- `text.lower()` followed by `re.sub(r'[^\w\s]', ' ', text)`, character by
character. -/
def clusterChars (t : String) : List Char :=
  (t.toList.map Char.toLower).map keepWordChar

/-- Python `str.split()` with no arguments over a character list: split on
runs of whitespace, producing only non-empty tokens.  `acc` holds the
(reversed) characters of the token currently being read. -/
def splitWsAux : List Char → List Char → List String
  | [], acc => if acc.isEmpty then [] else [String.mk acc.reverse]
  | c :: cs, acc =>
    if c.isWhitespace then
      (if acc.isEmpty then splitWsAux cs [] else String.mk acc.reverse :: splitWsAux cs [])
    else splitWsAux cs (c :: acc)

/-- Python `str.split()` with no arguments. -/
def pySplit (cs : List Char) : List String := splitWsAux cs []

/-- `text.lower()`, punctuation substitution, whitespace split
(`cluster_analysis.py` lines 86-87 and 100). -/
def tokensOf (t : String) : List String := pySplit (clusterChars t)

/-- The fixed stopword set of `extract_keywords_from_text`
(`cluster_analysis.py` lines 89-98). -/
def stopwords : List String :=
  ["the", "a", "an", "and", "or", "but", "in", "on", "at", "to", "for",
   "of", "with", "by", "from", "as", "is", "was", "are", "were", "been",
   "be", "have", "has", "had", "do", "does", "did", "will", "would",
   "could", "should", "may", "might", "can", "this", "that", "these",
   "those", "it", "its", "they", "them", "their", "what", "which",
   "who", "when", "where", "why", "how", "all", "each", "every",
   "both", "few", "more", "most", "other", "some", "such", "no",
   "not", "only", "own", "same", "so", "than", "too", "very", "just"]

/-- The token filter of `cluster_analysis.py` line 100:
`len(w) > 2 and w not in stopwords`. -/
def validWord (w : String) : Bool :=
  decide (2 < w.length) && !(stopwords.contains w)

/-- The filtered token list `words` of `cluster_analysis.py` line 100. -/
def wordsOf (t : String) : List String := (tokensOf t).filter validWord

/-- `cluster_analysis.extract_keywords_from_text`: empty/whitespace-only text
yields no keywords (`not text.strip()` holds exactly when every character is
whitespace); otherwise the text is lower-cased, punctuation is replaced,
tokens of length at most 2 and stopwords are removed, and the `n` most
frequent remaining tokens are returned. -/
def extract_keywords_from_text (t : String) (n : Nat) : List String :=
  if t.toList.all Char.isWhitespace then [] else mostCommon (wordsOf t) n

/-! ## Per-cluster labels (`cluster_analysis.extract_cluster_keywords`,
lines 108-142) -/

/-- A record as seen by the cluster labeler: its assigned cluster id and its
(nullable) fetched page title. -/
structure KRow where
  cluster : Int
  url_title : Option String
deriving DecidableEq

/-- `' '.join(cluster_data['url_title'].fillna('').astype(str).tolist())` for
the members of cluster `c` (`cluster_analysis.py` lines 125-132). -/
def clusterText (rows : List KRow) (c : Int) : String :=
  pyJoin " " ((rows.filter (fun r => r.cluster == c)).map (fun r => r.url_title.getD ""))

/-- The keyword label stored for cluster `c`:
`', '.join(keywords) if keywords else 'N/A'` (`cluster_analysis.py`
line 136). -/
def clusterLabelFor (rows : List KRow) (c : Int) : String :=
  let kws := extract_keywords_from_text (clusterText rows c) 3
  if kws.isEmpty then "N/A" else pyJoin ", " kws

/-- `cluster_analysis.extract_cluster_keywords`: every row is mapped to the
label of its own cluster.  (The source builds a dict keyed by the unique
cluster ids and then maps the `cluster` column through it; since every row's
id is one of the unique ids, this is the same assignment.) -/
def extract_cluster_keywords (rows : List KRow) : List (KRow × String) :=
  rows.map (fun r => (r, clusterLabelFor rows r.cluster))

/-! ## Visualization keywords and points
(`visualize_stars.prepare_visualization_data`, lines 36-101) -/

/-- A Python `\w` word character (ASCII): letter, digit or underscore. -/
def isWordCharB (c : Char) : Bool := c.isAlphanum || c = '_'

/-- The maximal runs of word characters of a character list, in order.
`acc` holds the (reversed) characters of the run currently being read. -/
def wordRunsAux : List Char → List Char → List String
  | [], acc => if acc.isEmpty then [] else [String.mk acc.reverse]
  | c :: cs, acc =>
    if isWordCharB c then wordRunsAux cs (c :: acc)
    else (if acc.isEmpty then wordRunsAux cs [] else String.mk acc.reverse :: wordRunsAux cs [])

/-- The maximal runs of word characters of a character list. -/
def wordRuns (cs : List Char) : List String := wordRunsAux cs []

/-- `re.findall(r'\b[a-zA-Z]{4,}\b', title.lower())`
(`visualize_stars.py` line 81).  A match of this pattern is exactly a
maximal run of word characters that consists solely of letters and has
length at least 4 (the word boundaries forbid adjacent word characters, so a
match cannot be part of a longer run, and a run containing a digit or
underscore has no match inside it). -/
def visFindall (t : String) : List String :=
  (wordRuns (t.toList.map Char.toLower)).filter
    (fun w => w.toList.all Char.isAlpha && decide (4 ≤ w.length))

/-- The stopword set of `prepare_visualization_data`
(`visualize_stars.py` lines 84-86). -/
def visStopWords : List String :=
  ["that", "this", "with", "from", "have", "been", "were", "will",
   "their", "there", "what", "when", "where", "which", "about",
   "after", "says", "over", "more", "than", "into", "could", "would"]

/-- `all_words` collected over the non-null titles and then filtered by the
renderer's stopword set (`visualize_stars.py` lines 79-88). -/
def visWordsOfTitles (titles : List String) : List String :=
  ((titles.map visFindall).flatten).filter (fun w => !(visStopWords.contains w))

/-- A row of the clustered CSV as read by the visualization renderer.  Only
the attributes the renderer touches are modelled; `none` stands for a
missing value (for which the source's `row.get(col, default)` produces the
default). -/
structure VRow where
  x_2d : ℚ
  y_2d : ℚ
  url_title : Option String
  cluster : Option Int
  cluster_keywords : Option String
  sqldate : Option Int
  sourceurl : Option String
  goldstein : Option ℚ
  eventCode : Option String
  eventRootCode : Option String
  actionGeoFullName : Option String
deriving DecidableEq

/-- One entry of the embedded `vis_data` payload
(`visualize_stars.py` lines 53-64). -/
structure VPoint where
  x : ℚ
  y : ℚ
  title : String
  cluster : Int
  keywords : String
  date : String
  url : String
  goldstein : ℚ
  eventCode : String
  eventRootCode : String
deriving DecidableEq

/-- The per-row projection of `prepare_visualization_data`
(`visualize_stars.py` lines 49-64): each attribute is read with a default
for a missing value, and the topic root code defaults to the 2-character
code head when absent. -/
def toVisPoint (r : VRow) : VPoint :=
  let event_code := r.eventCode.getD ""
  { x := r.x_2d
    y := r.y_2d
    title := r.url_title.getD "N/A"
    cluster := r.cluster.getD 0
    keywords := r.cluster_keywords.getD ""
    date := (r.sqldate.map toString).getD "N/A"
    url := r.sourceurl.getD ""
    goldstein := r.goldstein.getD 0
    eventCode := event_code
    eventRootCode :=
      r.eventRootCode.getD (if 2 ≤ event_code.length then event_code.take 2 else "") }

/-- The `vis_data` list: one point appended per row of the iteration
(`visualize_stars.py` lines 48-64). -/
def vis_points (rows : List VRow) : List VPoint := rows.map toVisPoint

/-- The run-level `top_words` metadata (`visualize_stars.py` lines 79-90):
the 5 most common stopword-filtered words of all non-null titles. -/
def visTopWords (rows : List VRow) : List String :=
  mostCommon (visWordsOfTitles (rows.filterMap (fun r => r.url_title))) 5

/-- `visualize_stars.prepare_visualization_data`, restricted to the claim
relevant outputs: the point list and the `top_words` metadata.  (The
dominant-location metadata is not modelled; no claim concerns it.) -/
def prepare_visualization_data (rows : List VRow) : List VPoint × List String :=
  (vis_points rows, visTopWords rows)

/-! ## Page-title fetching (`fetch_gdelt.get_page_title`, lines 91-134, and
`fetch_gdelt.enrich_urls_with_titles`, lines 194-242) -/

/-- The outcome of one network fetch plus HTML parse for a URL: treated as
an external black box.  On success it carries the content of the page's
`title` element, if one is present. -/
inductive FetchOutcome
  | success (titleTag : Option String)
  | timeout
  | httpError
  | parseError
  | otherError
deriving DecidableEq

/-- Whether an outcome is one of the error cases. -/
def FetchOutcome.isErr : FetchOutcome → Bool
  | .success _ => false
  | _ => true

/-- The exception classes caught by `get_page_title`. -/
inductive PyError
  | timeout
  | request
  | other
deriving DecidableEq

/-- The `try` body of `get_page_title` (`fetch_gdelt.py` lines 109-124): it
either returns the stripped non-empty title (else `None`) or raises one of
the caught exception classes. -/
def fetchParse (net : String → FetchOutcome) (u : String) : Except PyError (Option String) :=
  match net u with
  | .success tag =>
    .ok (match tag with
         | some t => (if t.trim.isEmpty then none else some t.trim)
         | none => none)
  | .timeout => .error .timeout
  | .httpError => .error .request
  | .parseError => .error .other
  | .otherError => .error .other

/-- `fetch_gdelt.get_page_title`: falsy/non-string URLs give `None`; every
exception raised by the fetch-and-parse body is caught and turned into
`None` (lines 126-134), so the function always returns a value. -/
def get_page_title (net : String → FetchOutcome) (url : Option String) : Option String :=
  match url with
  | none => none
  | some u =>
    if u.isEmpty then none
    else
      match fetchParse net u with
      | .ok t => t
      | .error _ => none

/-- `df['SOURCEURL'].dropna().unique()` (`fetch_gdelt.py` line 210): the
distinct non-null URLs in first-occurrence order.  A row is modelled as a
payload `α` paired with its nullable `SOURCEURL`. -/
def uniqueNonNullUrls {α : Type} (rows : List (α × Option String)) : List String :=
  dedupFirst (rows.filterMap Prod.snd)

/-- The `url_titles` dict built by the worker pool (`fetch_gdelt.py` lines
215-236): one `get_page_title` call per unique URL, keyed by URL.  (Results
are joined back by URL key, so the completion order of the concurrent
fetches is irrelevant.) -/
def url_titles_list {α : Type} (net : String → FetchOutcome)
    (rows : List (α × Option String)) : List (String × Option String) :=
  (uniqueNonNullUrls rows).map (fun u => (u, get_page_title net (some u)))

/-- Association-list lookup with decidable string equality. -/
def dictGet : List (String × Option String) → String → Option (Option String)
  | [], _ => none
  | (k, v) :: t, u => if k = u then some v else dictGet t u

/-- `pandas.Series.map` through the `url_titles` dict
(`fetch_gdelt.py` line 238): null URLs and keys absent from the dict give a
null title. -/
def mapColumn (dict : List (String × Option String)) (u : Option String) : Option String :=
  match u with
  | none => none
  | some s =>
    match dictGet dict s with
    | some v => v
    | none => none

/-- `fetch_gdelt.enrich_urls_with_titles`: appends to every row the title
fetched for its URL.  (For an empty input the source returns the input
frame with no added column; in this row-list model both sides are the empty
list.) -/
def enrich_urls_with_titles {α : Type} (net : String → FetchOutcome)
    (rows : List (α × Option String)) : List ((α × Option String) × Option String) :=
  rows.map (fun r => (r, mapColumn (url_titles_list net rows) r.2))

/-! ## A column-aware DataFrame model -/

/-- A scalar cell of a DataFrame: null (`NaN`), a string, or a number
(machine floats are modelled with exact rationals). -/
inductive Cell
  | null
  | str (s : String)
  | num (q : ℚ)
deriving DecidableEq

/-- A DataFrame: its column list, and one association list of
column-to-cell bindings per row. -/
structure PDF where
  cols : List String
  rows : List (List (String × Cell))
deriving DecidableEq, Inhabited

/-- `df.empty`: true when either axis has length 0. -/
def PDF.isEmptyDF (df : PDF) : Bool := df.rows.isEmpty || df.cols.isEmpty

/-- Well-formedness: every cell of every row belongs to a listed column. -/
def PDF.WF (df : PDF) : Prop := ∀ r ∈ df.rows, ∀ p ∈ r, p.1 ∈ df.cols

/-- Reading the cell of column `c` in a row (first binding wins). -/
def rowGet : List (String × Cell) → String → Option Cell
  | [], _ => none
  | (k, v) :: t, c => if k = c then some v else rowGet t c

/-- Column assignment `df[k] = v` at row level: any previous binding for `k`
is dropped and the new one appended, so each key is bound at most once. -/
def rowSet (r : List (String × Cell)) (k : String) (v : Cell) : List (String × Cell) :=
  (r.filter (fun p => p.1 ≠ k)) ++ [(k, v)]

/-- Column assignment at column-list level: a new column name is appended,
an existing one is kept in place. -/
def colsSet (cols : List String) (k : String) : List String :=
  if k ∈ cols then cols else cols ++ [k]

/-- `series.astype(str)` applied to one cell: `str(nan)` is the string
`"nan"`. -/
def cellAsStr : Option Cell → String
  | none => "nan"
  | some .null => "nan"
  | some (.str s) => s
  | some (.num q) => toString q

/-- `series.fillna('').astype(str)` applied to one cell. -/
def fillnaStr : Option Cell → String
  | none => ""
  | some .null => ""
  | some (.str s) => s
  | some (.num q) => toString q

/-! ## Embedding enricher (`enrich_embeddings.generate_embeddings`,
lines 34-120) -/

/-- Minimum of a non-empty collection `a :: t`. -/
def listMin (a : ℚ) (t : List ℚ) : ℚ := t.foldl min a

/-- Maximum of a non-empty collection `a :: t`. -/
def listMax (a : ℚ) (t : List ℚ) : ℚ := t.foldl max a

/-- One column of `MinMaxScaler(feature_range=(0, 1)).fit_transform`
(`enrich_embeddings.py` lines 112-113), per its documented transform:
`(x - min) / (max - min)`, with a zero data range handled by scaling with 1
instead (sklearn's `_handle_zeros_in_scale`). -/
def minmaxCol (xs : List ℚ) : List ℚ :=
  match xs with
  | [] => []
  | a :: t =>
    let lo := listMin a t
    let hi := listMax a t
    if hi - lo = 0 then (a :: t).map (fun x => x - lo)
    else (a :: t).map (fun x => (x - lo) / (hi - lo))

/-- Independent min-max rescaling of the two t-SNE axes. -/
def rescale2d (cs : List (ℚ × ℚ)) : List (ℚ × ℚ) :=
  (minmaxCol (cs.map Prod.fst)).zip (minmaxCol (cs.map Prod.snd))

/-- The embedding-column loop of `enrich_embeddings.py` lines 98-99 on one
row: `df[f'embedding_{i}'] = embeddings[:, i]` for `i < dim`, with `v` the
row's embedding vector. -/
def embColsAdd (r : List (String × Cell)) (v : List ℚ) (dim : Nat) : List (String × Cell) :=
  (List.range dim).foldl
    (fun acc i => rowSet acc ("embedding_" ++ toString i) (.num (v.getD i 0))) r

/-- The body of `generate_embeddings` after its input checks
(`enrich_embeddings.py` lines 53-120), on the copied frame: encode the
filled-in titles, append one column per embedding dimension, reduce with
t-SNE, min-max rescale both axes and append `x_2d`/`y_2d`.  The embedding
model and t-SNE are external collaborators, passed as the functions
`encode` and `tsne`; their outputs are assumed row-aligned with the input
(numpy raises otherwise), which the pairwise `zip` makes explicit. -/
def genBody (encode : List String → List (List ℚ)) (tsne : List (List ℚ) → List (ℚ × ℚ))
    (df : PDF) : PDF :=
  let titles := df.rows.map (fun r => fillnaStr (rowGet r "url_title"))
  let embs := encode titles
  let dim := (embs.headD []).length
  let rows1 := (df.rows.zip embs).map (fun p => embColsAdd p.1 p.2 dim)
  let scaled := rescale2d (tsne embs)
  let rows2 := (rows1.zip scaled).map
    (fun p => rowSet (rowSet p.1 "x_2d" (.num p.2.1)) "y_2d" (.num p.2.2))
  let cols2 := ((List.range dim).map (fun i => "embedding_" ++ toString i)
      ++ ["x_2d", "y_2d"]).foldl colsSet df.cols
  ⟨cols2, rows2⟩

/-- `enrich_embeddings.generate_embeddings` (lines 34-120): an empty frame
is returned as is with a warning; a frame without the `url_title` column
raises `ValueError`; otherwise the enriched copy is returned. -/
def generate_embeddings (encode : List String → List (List ℚ))
    (tsne : List (List ℚ) → List (ℚ × ℚ)) (df : PDF) : Except String PDF :=
  if df.isEmptyDF then .ok df
  else if "url_title" ∉ df.cols then
    .error "DataFrame must contain the url_title column"
  else .ok (genBody encode tsne df)

/-! ## Democracy filter (`fetch_gdelt.filter_democracy_events`,
lines 137-161) and the frame-effect heap model -/

/-- The `DEMOCRACY_CATEGORIES` table of `fetch_gdelt.py` lines 26-58,
flattened to (code, category) pairs in source order. -/
def codeToCategory : List (String × String) :=
  [("172", "Political Repression & Restrictions"),
   ("1721", "Political Repression & Restrictions"),
   ("1722", "Political Repression & Restrictions"),
   ("1723", "Political Repression & Restrictions"),
   ("1724", "Political Repression & Restrictions"),
   ("173", "Political Repression & Restrictions"),
   ("174", "Political Repression & Restrictions"),
   ("175", "Political Repression & Restrictions"),
   ("140", "Protest & Dissent Events"),
   ("141", "Protest & Dissent Events"),
   ("1411", "Protest & Dissent Events"),
   ("1412", "Protest & Dissent Events"),
   ("1413", "Protest & Dissent Events"),
   ("1414", "Protest & Dissent Events"),
   ("143", "Protest & Dissent Events"),
   ("145", "Protest & Dissent Events"),
   ("1451", "Protest & Dissent Events"),
   ("1452", "Protest & Dissent Events"),
   ("1453", "Protest & Dissent Events"),
   ("1454", "Protest & Dissent Events"),
   ("132", "Threats to Democratic Order"),
   ("1321", "Threats to Democratic Order"),
   ("1322", "Threats to Democratic Order"),
   ("1324", "Threats to Democratic Order"),
   ("137", "Threats to Democratic Order"),
   ("104", "Demands for Democratic Reform"),
   ("1041", "Demands for Democratic Reform"),
   ("1042", "Demands for Democratic Reform"),
   ("1043", "Demands for Democratic Reform"),
   ("1044", "Demands for Democratic Reform"),
   ("123", "Rejection of Democratic Processes"),
   ("1231", "Rejection of Democratic Processes"),
   ("1232", "Rejection of Democratic Processes"),
   ("1233", "Rejection of Democratic Processes"),
   ("1234", "Rejection of Democratic Processes"),
   ("128", "Rejection of Democratic Processes"),
   ("180", "Violence Against Civilians"),
   ("181", "Violence Against Civilians"),
   ("182", "Violence Against Civilians"),
   ("1822", "Violence Against Civilians"),
   ("1823", "Violence Against Civilians"),
   ("185", "Violence Against Civilians"),
   ("186", "Violence Against Civilians"),
   ("201", "Mass Violence & Persecution"),
   ("202", "Mass Violence & Persecution"),
   ("203", "Mass Violence & Persecution"),
   ("092", "Judicial & Legal Actions"),
   ("112", "Judicial & Legal Actions"),
   ("1122", "Judicial & Legal Actions"),
   ("115", "Judicial & Legal Actions"),
   ("116", "Judicial & Legal Actions"),
   ("0241", "Electoral & Political Cooperation/Conflict"),
   ("0244", "Electoral & Political Cooperation/Conflict"),
   ("0831", "Electoral & Political Cooperation/Conflict"),
   ("0832", "Electoral & Political Cooperation/Conflict"),
   ("0833", "Electoral & Political Cooperation/Conflict"),
   ("0834", "Electoral & Political Cooperation/Conflict"),
   ("161", "Electoral & Political Cooperation/Conflict"),
   ("011", "Media & Information Control Related"),
   ("111", "Media & Information Control Related"),
   ("113", "Media & Information Control Related")]

/-- The `DEMOCRACY_EVENT_CODES` allowlist (`fetch_gdelt.py` lines 60-65). -/
def democracyEventCodes : List String := codeToCategory.map Prod.fst

/-- `df['EventCode'] = df['EventCode'].astype(str)`
(`fetch_gdelt.py` line 152) on a whole frame. -/
def astypeStrEventCode (df : PDF) : PDF :=
  ⟨colsSet df.cols "EventCode",
   df.rows.map (fun r => rowSet r "EventCode" (.str (cellAsStr (rowGet r "EventCode"))))⟩

/-- `df_filtered = df[df['EventCode'].isin(DEMOCRACY_EVENT_CODES)]`
(`fetch_gdelt.py` lines 154-155).  Boolean-mask selection produces a new
frame holding the selected rows. -/
def maskDemocracy (df : PDF) : PDF :=
  ⟨df.cols,
   df.rows.filter (fun r =>
     match rowGet r "EventCode" with
     | some (.str s) => democracyEventCodes.contains s
     | _ => false)⟩

/-- `df_filtered['democracy_category'] = df_filtered['EventCode'].map(CODE_TO_CATEGORY)`
(`fetch_gdelt.py` line 157): codes outside the dict map to null. -/
def addDemocracyCategory (df : PDF) : PDF :=
  ⟨colsSet df.cols "democracy_category",
   df.rows.map (fun r => rowSet r "democracy_category"
     (match rowGet r "EventCode" with
      | some (.str s) =>
        (match dictGet (codeToCategory.map (fun p => (p.1, some p.2))) s with
         | some (some c) => .str c
         | _ => .null)
      | _ => .null))⟩

/-- The `url_title` column assignment of `enrich_urls_with_titles`
(`fetch_gdelt.py` lines 210-238) on a `PDF` frame: one `get_page_title`
per distinct non-null URL, broadcast back by URL key. -/
def enrichTitlesPDF (net : String → FetchOutcome) (df : PDF) : PDF :=
  let urls := dedupFirst (df.rows.filterMap (fun r =>
    match rowGet r "SOURCEURL" with
    | some (.str s) => some s
    | _ => none))
  let dict := urls.map (fun u => (u, get_page_title net (some u)))
  ⟨colsSet df.cols "url_title",
   df.rows.map (fun r => rowSet r "url_title"
     (match rowGet r "SOURCEURL" with
      | some (.str u) =>
        (match dictGet dict u with
         | some (some t) => .str t
         | _ => .null)
      | _ => .null))⟩

/-!
The frame effect of the three enrichment functions is made explicit with a
heap of `PDF` values: a heap is a list of frames, an object reference is an
index into it, allocation appends, and in-place mutation writes a slot.
Each Python function below takes the heap and the index of its argument
frame and returns the index of its result frame together with the final
heap.  `df.copy()` allocates; boolean-mask selection allocates (pandas
returns a new frame); column assignment mutates the frame it is applied to
— for these three functions always a frame allocated after entry, the
`.copy()` of the input or a mask selection from it, never the caller's
frame.
-/

/-- `fetch_gdelt.filter_democracy_events` (lines 137-161) on the heap:
empty input is returned as is; otherwise the input is copied (slot `j`),
the copy's `EventCode` column is rewritten in place, a mask selection
allocates the filtered frame (slot `k`), whose category column is written
in place; slot `k` is returned. -/
def filter_democracy_events_prog (h : List PDF) (i : Nat) : Nat × List PDF :=
  let df := h.getD i default
  if df.isEmptyDF then (i, h)
  else
    let j := h.length
    let dfc := astypeStrEventCode df
    let k := j + 1
    let dff := addDemocracyCategory (maskDemocracy dfc)
    (k, h ++ [dfc, dff])

/-- `fetch_gdelt.enrich_urls_with_titles` (lines 194-242) on the heap:
empty input is returned as is; otherwise the input is copied and the copy's
`url_title` column written in place; the copy is returned. -/
def enrich_urls_with_titles_prog (net : String → FetchOutcome) (h : List PDF) (i : Nat) :
    Nat × List PDF :=
  let df := h.getD i default
  if df.isEmptyDF then (i, h)
  else (h.length, h ++ [enrichTitlesPDF net df])

/-- `enrich_embeddings.generate_embeddings` (lines 34-120) on the heap:
empty input is returned as is; a missing `url_title` column raises before
anything is allocated or written; otherwise the input is copied and all
column writes target the copy, which is returned. -/
def generate_embeddings_prog (encode : List String → List (List ℚ))
    (tsne : List (List ℚ) → List (ℚ × ℚ)) (h : List PDF) (i : Nat) :
    Except String (Nat × List PDF) :=
  let df := h.getD i default
  if df.isEmptyDF then .ok (i, h)
  else if "url_title" ∉ df.cols then
    .error "DataFrame must contain the url_title column"
  else .ok (h.length, h ++ [genBody encode tsne df])

/-- The ordering "keyword `a` is listed before keyword `b`" promised for
`Counter.most_common` over the word list `ws`: strictly more occurrences,
or equally many and first encountered earlier in `ws`. -/
def freqBefore (ws : List String) (a b : String) : Prop :=
  ws.count b < ws.count a ∨ (ws.count a = ws.count b ∧ firstIdx ws a < firstIdx ws b)

/-! ## Concrete fixtures used by witness theorems -/

/-- A constant 1-dimensional embedding model. -/
def encConst : List String → List (List ℚ) := fun ts => ts.map (fun _ => [1])

/-- A constant 2D reducer. -/
def tsneConst : List (List ℚ) → List (ℚ × ℚ) := fun vs => vs.map (fun _ => (2, 3))

/-- A network where every fetch times out. -/
def netTimeout : String → FetchOutcome := fun _ => FetchOutcome.timeout

/-- A network where one URL times out and every other one succeeds. -/
def netMixed : String → FetchOutcome := fun u =>
  if u = "http://bad" then FetchOutcome.timeout else FetchOutcome.success (some " Good Title ")

/-- An empty frame (the downstream stages receive frames with columns but
no rows when nothing was fetched). -/
def dfEmptyFix : PDF := ⟨["EventCode", "SOURCEURL", "url_title"], []⟩

/-- A non-empty frame without the `url_title` column. -/
def dfNoTitleFix : PDF := ⟨["SOURCEURL"], [[("SOURCEURL", Cell.str "http://a")]]⟩

/-- A one-row frame with a `url_title` column. -/
def dfOneFix : PDF := ⟨["url_title"], [[("url_title", Cell.str "a")]]⟩

/-- The single enriched row `generate_embeddings` produces from
`dfOneFix` with `encConst`/`tsneConst`. -/
def rowOneFix : List (String × Cell) :=
  [("url_title", Cell.str "a"), ("embedding_0", Cell.num 1),
   ("x_2d", Cell.num 0), ("y_2d", Cell.num 0)]

/-- A heap holding one non-empty frame. -/
def heapFix : List PDF :=
  [⟨["EventCode", "SOURCEURL", "url_title"],
    [[("EventCode", Cell.str "172"), ("SOURCEURL", Cell.str "http://a"),
      ("url_title", Cell.null)]]⟩]

/-- Two clustered rows, one with a title and one with a null title. -/
def krowsFix : List KRow := [⟨0, some "brazil protest democracy now"⟩, ⟨1, none⟩]

/-- Four rows for the title enricher: a duplicated failing URL, a working
URL and a null URL. -/
def trowsFix : List (Nat × Option String) :=
  [(0, some "http://bad"), (1, some "http://good"), (2, some "http://bad"), (3, none)]

/-! # Lemmas -/

/-! ## Sanity examples for the keyword model -/

example : tokensOf "Brazil: protest!" = ["brazil", "protest"] := by decide
example : wordsOf "the law of the-sea" = ["law", "sea"] := by decide
example : extract_keywords_from_text "Brazil protest: the protest grows" 2 =
    ["protest", "brazil"] := by decide
example : extract_keywords_from_text "   " 3 = [] := by decide
example : visFindall "Lula says: vote2024 now, Brazil!" = ["lula", "says", "brazil"] := by
  decide
example : visWordsOfTitles ["law says 2024"] = [] := by decide

/-! ## First-occurrence order -/

theorem firstIdx_cons_self {α : Type} [DecidableEq α] (a : α) (t : List α) :
    firstIdx (a :: t) a = 0 := by
  simp [firstIdx]

theorem firstIdx_cons_ne {α : Type} [DecidableEq α] {b a : α} (t : List α) (h : b ≠ a) :
    firstIdx (b :: t) a = firstIdx t a + 1 := by
  simp [firstIdx, h]

theorem mem_dedupFirstAux {α : Type} [DecidableEq α] (l : List α) :
    ∀ (seen : List α) (a : α), a ∈ dedupFirstAux l seen ↔ a ∈ l ∧ a ∉ seen := by
  induction l with
  | nil => intro seen a; simp [dedupFirstAux]
  | cons x t ih =>
    intro seen a
    by_cases hx : x ∈ seen
    · rw [dedupFirstAux, if_pos hx, ih seen a]
      constructor
      · rintro ⟨h1, h2⟩
        exact ⟨List.mem_cons_of_mem _ h1, h2⟩
      · rintro ⟨h1, h2⟩
        rcases List.mem_cons.1 h1 with rfl | h1
        · exact absurd hx h2
        · exact ⟨h1, h2⟩
    · rw [dedupFirstAux, if_neg hx]
      constructor
      · intro h
        rcases List.mem_cons.1 h with rfl | h
        · exact ⟨List.mem_cons_self _ _, hx⟩
        · rcases (ih (x :: seen) a).1 h with ⟨h1, h2⟩
          exact ⟨List.mem_cons_of_mem _ h1, fun hs => h2 (List.mem_cons_of_mem _ hs)⟩
      · rintro ⟨h1, h2⟩
        rcases List.mem_cons.1 h1 with rfl | h1
        · exact List.mem_cons_self _ _
        · by_cases hax : a = x
          · subst hax
            exact List.mem_cons_self _ _
          · refine List.mem_cons_of_mem _ ((ih (x :: seen) a).2 ⟨h1, ?_⟩)
            simp [hax, h2]

theorem mem_dedupFirst {α : Type} [DecidableEq α] (l : List α) (a : α) :
    a ∈ dedupFirst l ↔ a ∈ l := by
  rw [dedupFirst, mem_dedupFirstAux]
  simp

theorem nodup_dedupFirstAux {α : Type} [DecidableEq α] (l : List α) :
    ∀ seen : List α, (dedupFirstAux l seen).Nodup := by
  induction l with
  | nil => intro seen; simp [dedupFirstAux]
  | cons x t ih =>
    intro seen
    by_cases hx : x ∈ seen
    · rw [dedupFirstAux, if_pos hx]
      exact ih seen
    · rw [dedupFirstAux, if_neg hx]
      refine List.Nodup.cons ?_ (ih (x :: seen))
      intro hmem
      exact ((mem_dedupFirstAux t (x :: seen) x).1 hmem).2 (List.mem_cons_self _ _)

theorem nodup_dedupFirst {α : Type} [DecidableEq α] (l : List α) : (dedupFirst l).Nodup :=
  nodup_dedupFirstAux l []

/-- The first-occurrence list is strictly increasing in first-occurrence
position. -/
theorem pairwise_firstIdx_dedupFirstAux {α : Type} [DecidableEq α] (l : List α) :
    ∀ seen : List α,
      (dedupFirstAux l seen).Pairwise (fun a b => firstIdx l a < firstIdx l b) := by
  induction l with
  | nil => intro seen; simp [dedupFirstAux]
  | cons x t ih =>
    intro seen
    by_cases hx : x ∈ seen
    · rw [dedupFirstAux, if_pos hx]
      refine (ih seen).imp_of_mem ?_
      intro a b ha hb hab
      have hat := (mem_dedupFirstAux t seen a).1 ha
      have hbt := (mem_dedupFirstAux t seen b).1 hb
      have hax : x ≠ a := fun h => hat.2 (h ▸ hx)
      have hbx : x ≠ b := fun h => hbt.2 (h ▸ hx)
      rw [firstIdx_cons_ne t hax, firstIdx_cons_ne t hbx]
      omega
    · rw [dedupFirstAux, if_neg hx]
      refine List.Pairwise.cons ?_ ?_
      · intro b hb
        have hbt := (mem_dedupFirstAux t (x :: seen) b).1 hb
        have hbx : x ≠ b := fun h => hbt.2 (h ▸ List.mem_cons_self _ _)
        rw [firstIdx_cons_self, firstIdx_cons_ne t hbx]
        omega
      · refine (ih (x :: seen)).imp_of_mem ?_
        intro a b ha hb hab
        have hat := (mem_dedupFirstAux t (x :: seen) a).1 ha
        have hbt := (mem_dedupFirstAux t (x :: seen) b).1 hb
        have hax : x ≠ a := fun h => hat.2 (h ▸ List.mem_cons_self _ _)
        have hbx : x ≠ b := fun h => hbt.2 (h ▸ List.mem_cons_self _ _)
        rw [firstIdx_cons_ne t hax, firstIdx_cons_ne t hbx]
        omega

theorem pairwise_firstIdx_dedupFirst {α : Type} [DecidableEq α] (l : List α) :
    (dedupFirst l).Pairwise (fun a b => firstIdx l a < firstIdx l b) :=
  pairwise_firstIdx_dedupFirstAux l []

/-! ## The stable descending sort behind `most_common` -/

theorem mem_insertDesc (key : String → Nat) (a x : String) :
    ∀ l : List String, x ∈ insertDesc key a l ↔ x = a ∨ x ∈ l := by
  intro l
  induction l with
  | nil => simp [insertDesc]
  | cons b bs ih =>
    by_cases hb : key b ≤ key a
    · rw [insertDesc, if_pos hb]
      simp [List.mem_cons]
    · rw [insertDesc, if_neg hb]
      rw [List.mem_cons, ih, List.mem_cons]
      tauto

theorem perm_insertDesc (key : String → Nat) (a : String) :
    ∀ l : List String, (insertDesc key a l).Perm (a :: l) := by
  intro l
  induction l with
  | nil => simp [insertDesc]
  | cons b bs ih =>
    by_cases hb : key b ≤ key a
    · rw [insertDesc, if_pos hb]
    · rw [insertDesc, if_neg hb]
      exact (List.Perm.cons b ih).trans (List.Perm.swap a b bs)

theorem perm_sortDesc (key : String → Nat) :
    ∀ l : List String, (sortDesc key l).Perm l := by
  intro l
  induction l with
  | nil => simp [sortDesc]
  | cons a as ih =>
    rw [sortDesc]
    exact (perm_insertDesc key a (sortDesc key as)).trans (List.Perm.cons a ih)

/-- Inserting `a` into a list sorted by count-then-original-order keeps it
sorted, provided `a` precedes every current element in the original order
`Q` (which is how `sortDesc` uses it: elements are inserted from last to
first). -/
theorem pairwise_insertDesc (key : String → Nat) (Q : String → String → Prop) (a : String) :
    ∀ l : List String,
      l.Pairwise (fun x y => key y < key x ∨ (key x = key y ∧ Q x y)) →
      (∀ b ∈ l, Q a b) →
      (insertDesc key a l).Pairwise
        (fun x y => key y < key x ∨ (key x = key y ∧ Q x y)) := by
  intro l
  induction l with
  | nil =>
    intro _ _
    simp [insertDesc]
  | cons b bs ih =>
    intro hl ha
    rcases List.pairwise_cons.1 hl with ⟨hb, hbs⟩
    by_cases hba : key b ≤ key a
    · rw [insertDesc, if_pos hba]
      refine List.Pairwise.cons ?_ hl
      intro x hx
      rcases List.mem_cons.1 hx with rfl | hx
      · rcases Nat.lt_or_ge (key x) (key a) with h | h
        · exact Or.inl h
        · exact Or.inr ⟨Nat.le_antisymm h hba, ha x (List.mem_cons_self _ _)⟩
      · have hxb := hb x hx
        have hxle : key x ≤ key a := by
          rcases hxb with h | ⟨h, _⟩ <;> omega
        rcases Nat.lt_or_ge (key x) (key a) with h | h
        · exact Or.inl h
        · exact Or.inr ⟨Nat.le_antisymm h hxle, ha x (List.mem_cons_of_mem _ hx)⟩
    · rw [insertDesc, if_neg hba]
      refine List.Pairwise.cons ?_ (ih hbs (fun c hc => ha c (List.mem_cons_of_mem _ hc)))
      intro x hx
      rcases (mem_insertDesc key a x bs).1 hx with rfl | hx
      · exact Or.inl (Nat.lt_of_not_le hba)
      · exact hb x hx

/-- The stable descending sort of a list that is strictly ordered by `Q` is
sorted by key, with ties resolved by `Q` — stability. -/
theorem pairwise_sortDesc (key : String → Nat) (Q : String → String → Prop) :
    ∀ l : List String, l.Pairwise Q →
      (sortDesc key l).Pairwise (fun x y => key y < key x ∨ (key x = key y ∧ Q x y)) := by
  intro l
  induction l with
  | nil =>
    intro _
    simp [sortDesc]
  | cons a as ih =>
    intro hl
    rcases List.pairwise_cons.1 hl with ⟨ha, has⟩
    rw [sortDesc]
    refine pairwise_insertDesc key Q a (sortDesc key as) (ih has) ?_
    intro b hb
    exact ha b ((perm_sortDesc key as).mem_iff.1 hb)

/-- `most_common` output is ordered by decreasing count with ties broken by
first-encountered position. -/
theorem pairwise_freqBefore_mostCommon (ws : List String) (n : Nat) :
    (mostCommon ws n).Pairwise (freqBefore ws) := by
  have h := pairwise_sortDesc (fun w => ws.count w) (fun a b => firstIdx ws a < firstIdx ws b)
    (dedupFirst ws) (pairwise_firstIdx_dedupFirst ws)
  exact List.Pairwise.sublist (List.take_sublist n _) h

theorem mem_mostCommon {ws : List String} {n : Nat} {w : String}
    (h : w ∈ mostCommon ws n) : w ∈ ws := by
  have h1 : w ∈ sortDesc (fun w => ws.count w) (dedupFirst ws) :=
    (List.take_sublist n _).mem h
  exact (mem_dedupFirst ws w).1 ((perm_sortDesc _ _).mem_iff.1 h1)

theorem length_mostCommon (ws : List String) (n : Nat) :
    (mostCommon ws n).length = min n (dedupFirst ws).length := by
  rw [mostCommon, List.length_take, (perm_sortDesc (fun w => ws.count w) _).length_eq]

/-- Any word of `ws` left out of `most_common` has at most the count of any
word that was selected. -/
theorem mostCommon_maximal (ws : List String) (n : Nat) :
    ∀ w ∈ ws, w ∉ mostCommon ws n →
      ∀ v ∈ mostCommon ws n, ws.count w ≤ ws.count v := by
  intro w hw hnot v hv
  set s := sortDesc (fun w => ws.count w) (dedupFirst ws) with hs
  have hsp : s.Pairwise (fun x y =>
      ws.count y < ws.count x ∨ (ws.count x = ws.count y ∧ firstIdx ws x < firstIdx ws y)) :=
    pairwise_sortDesc _ _ (dedupFirst ws) (pairwise_firstIdx_dedupFirst ws)
  have hws : w ∈ s := (perm_sortDesc _ _).mem_iff.2 ((mem_dedupFirst ws w).2 hw)
  have hsplit : List.take n s ++ List.drop n s = s := List.take_append_drop n s
  have hwdrop : w ∈ List.drop n s := by
    rcases List.mem_append.1 (hsplit ▸ hws) with h | h
    · exact absurd h hnot
    · exact h
  rw [← hsplit] at hsp
  rcases (List.pairwise_append.1 hsp).2.2 v hv w hwdrop with h | ⟨h, _⟩
  · exact Nat.le_of_lt h
  · exact Nat.le_of_eq h.symm

/-! ## Tokenization lemmas -/

theorem toLower_of_whitespace {c : Char} (h : c.isWhitespace = true) :
    Char.toLower c = c := by
  simp [Char.isWhitespace] at h
  rcases h with ((h | h) | h) | h <;> · subst h; decide

theorem keepWordChar_of_whitespace {c : Char} (h : c.isWhitespace = true) :
    keepWordChar c = c := by
  rw [keepWordChar, if_pos]
  simp [h]

/-- A whitespace-only character stream splits into no tokens. -/
theorem splitWsAux_nil_of_all_whitespace :
    ∀ cs : List Char, (∀ c ∈ cs, c.isWhitespace = true) → splitWsAux cs [] = [] := by
  intro cs
  induction cs with
  | nil => intro _; simp [splitWsAux]
  | cons c t ih =>
    intro h
    rw [splitWsAux, if_pos (h c (List.mem_cons_self _ _))]
    simpa using ih (fun d hd => h d (List.mem_cons_of_mem _ hd))

/-- Whitespace-only text produces no filtered words: `not text.strip()` and
an empty token list coincide. -/
theorem wordsOf_nil_of_all_whitespace {t : String}
    (h : t.toList.all Char.isWhitespace = true) : wordsOf t = [] := by
  have htok : tokensOf t = [] := by
    rw [tokensOf, pySplit]
    refine splitWsAux_nil_of_all_whitespace _ ?_
    intro c hc
    rw [clusterChars] at hc
    rcases List.mem_map.1 hc with ⟨d, hd, rfl⟩
    rcases List.mem_map.1 hd with ⟨e, he, rfl⟩
    have hew := List.all_eq_true.1 h e he
    rw [toLower_of_whitespace hew, keepWordChar_of_whitespace hew]
    exact hew
  rw [wordsOf, htok]
  rfl

theorem validWord_iff (w : String) :
    validWord w = true ↔ 2 < w.length ∧ w ∉ stopwords := by
  simp [validWord]

theorem mem_wordsOf {t : String} {w : String} (h : w ∈ wordsOf t) :
    2 < w.length ∧ w ∉ stopwords := by
  rw [wordsOf] at h
  exact (validWord_iff w).1 (List.mem_filter.1 h).2

/-! ## Keyword extraction lemmas -/

theorem mem_extract_keywords {t : String} {n : Nat} {w : String}
    (h : w ∈ extract_keywords_from_text t n) : w ∈ wordsOf t := by
  rw [extract_keywords_from_text] at h
  split at h
  · simp at h
  · exact mem_mostCommon h

theorem extract_keywords_word_long {t : String} {n : Nat} {w : String}
    (h : w ∈ extract_keywords_from_text t n) : 2 < w.length :=
  (mem_wordsOf (mem_extract_keywords h)).1

/-! ## Join lemmas -/

theorem le_length_pyJoin (sep a : String) (l : List String) :
    a.length ≤ (pyJoin sep (a :: l)).length := by
  cases l with
  | nil => simp [pyJoin]
  | cons b rest =>
    rw [pyJoin]
    simp [String.length_append]
    omega

theorem ne_empty_of_length_pos {s : String} (h : 0 < s.length) : s ≠ "" := by
  intro he
  subst he
  simp at h

/-! # Claim theorems -/

/-- C5: for every input text and keyword count `n`,
`extract_keywords_from_text` lower-cases the text, replaces punctuation,
removes tokens of length at most 2 and stopword tokens (this preprocessing
is the definition of `wordsOf`), and returns the `n` most frequent remaining
tokens with ties broken by first-encountered order; and the per-cluster
label is these tokens joined by commas.  Concretely: every returned keyword
is a surviving token, long and not a stopword; all distinct surviving
tokens are returned when there are at most `n` of them; the output is
ordered by decreasing count with ties in first-encountered order; any
surviving token left out has at most the count of every returned one; and a
cluster with a non-empty keyword list gets exactly the comma-joined list as
its label. -/
theorem extract_keywords_spec (t : String) (n : Nat) :
    (∀ w ∈ extract_keywords_from_text t n,
      w ∈ wordsOf t ∧ 2 < w.length ∧ w ∉ stopwords) ∧
    (extract_keywords_from_text t n).length = min n (dedupFirst (wordsOf t)).length ∧
    (extract_keywords_from_text t n).Pairwise (freqBefore (wordsOf t)) ∧
    (∀ w ∈ wordsOf t, w ∉ extract_keywords_from_text t n →
      ∀ v ∈ extract_keywords_from_text t n,
        (wordsOf t).count w ≤ (wordsOf t).count v) ∧
    (∀ (rows : List KRow) (c : Int),
      extract_keywords_from_text (clusterText rows c) 3 ≠ [] →
      clusterLabelFor rows c =
        pyJoin ", " (extract_keywords_from_text (clusterText rows c) 3)) := by
  refine ⟨?_, ?_, ?_, ?_, ?_⟩
  · intro w hw
    have hm := mem_extract_keywords hw
    have hv := mem_wordsOf hm
    exact ⟨hm, hv.1, hv.2⟩
  · by_cases hws : t.toList.all Char.isWhitespace = true
    · rw [extract_keywords_from_text, if_pos hws, wordsOf_nil_of_all_whitespace hws]
      simp [dedupFirst, dedupFirstAux]
    · rw [extract_keywords_from_text, if_neg hws]
      exact length_mostCommon _ n
  · by_cases hws : t.toList.all Char.isWhitespace = true
    · rw [extract_keywords_from_text, if_pos hws]
      exact List.Pairwise.nil
    · rw [extract_keywords_from_text, if_neg hws]
      exact pairwise_freqBefore_mostCommon _ n
  · intro w hw hnot v hv
    by_cases hws : t.toList.all Char.isWhitespace = true
    · rw [extract_keywords_from_text, if_pos hws] at hv
      simp at hv
    · rw [extract_keywords_from_text, if_neg hws] at hnot hv
      exact mostCommon_maximal _ n w hw hnot v hv
  · intro rows c hne
    simp only [clusterLabelFor]
    rw [if_neg (by simpa using hne)]

/-- C5 witness: a keyword returned on a concrete text is a surviving token,
has length above 2 and is not a stopword. -/
theorem extract_keywords_spec_witness :
    "protest" ∈ wordsOf "Brazil protest: the protest grows" ∧
    2 < ("protest").length ∧ "protest" ∉ stopwords :=
  (extract_keywords_spec "Brazil protest: the protest grows" 2).1 "protest" (by decide)

/-- C6 counterexample: the renderer's token filter and the cluster labeler's
token filter are not extensionally equal — on the text `law says 2024` the
cluster labeler keeps all three tokens while the renderer keeps none. -/
theorem vis_cluster_filter_counterexample :
    wordsOf "law says 2024" = ["law", "says", "2024"] ∧
    visWordsOfTitles ["law says 2024"] = [] := by decide

/-- C6 amended: the renderer's keyword computation uses the same
frequency-count selection but a different token filter: it requires purely
alphabetic tokens of length at least 4 (the labeler admits alphanumeric
tokens of length at least 3) and a different stopword set; the filters
disagree in both directions. -/
theorem vis_cluster_filter_differences :
    (wordsOf "law" = ["law"] ∧ visWordsOfTitles ["law"] = []) ∧
    (wordsOf "2024" = ["2024"] ∧ visWordsOfTitles ["2024"] = []) ∧
    (wordsOf "says" = ["says"] ∧ visWordsOfTitles ["says"] = []) ∧
    (wordsOf "them" = [] ∧ visWordsOfTitles ["them"] = ["them"]) := by decide

/-- C7: every row produced by `extract_cluster_keywords` carries a
non-empty keyword label: either the comma-joined keywords (non-empty
because each keyword has length above 2) or the sentinel `N/A`. -/
theorem cluster_keywords_nonempty (rows : List KRow) :
    ∀ p ∈ extract_cluster_keywords rows, p.2 ≠ "" := by
  intro p hp
  rcases List.mem_map.1 hp with ⟨r, _, rfl⟩
  show clusterLabelFor rows r.cluster ≠ ""
  rw [clusterLabelFor]
  rcases hkw : extract_keywords_from_text (clusterText rows r.cluster) 3 with _ | ⟨w, rest⟩
  · simp [hkw]
  · have hw : w ∈ extract_keywords_from_text (clusterText rows r.cluster) 3 := by
      rw [hkw]
      exact List.mem_cons_self _ _
    have hlen := extract_keywords_word_long hw
    rw [if_neg (by simp)]
    exact ne_empty_of_length_pos
      (Nat.lt_of_lt_of_le (by omega) (le_length_pyJoin ", " w rest))

/-- C7 witness: the label attached to a concrete clustered row is
non-empty. -/
theorem cluster_keywords_nonempty_witness :
    ((⟨0, some "brazil protest democracy now"⟩, "brazil, protest, democracy") :
      KRow × String).2 ≠ "" :=
  cluster_keywords_nonempty krowsFix _ (by decide)

/-- C9: the visualization renderer produces exactly one point per input
row — no row is dropped or duplicated. -/
theorem vis_points_count_eq_rows (rows : List VRow) :
    (prepare_visualization_data rows).1.length = rows.length := by
  simp [prepare_visualization_data, vis_points]

/-! ## Title-enrichment lemmas -/

theorem dictGet_map_self (f : String → Option String) (u : String) :
    ∀ l : List String, u ∈ l →
      dictGet (l.map (fun x => (x, f x))) u = some (f u) := by
  intro l
  induction l with
  | nil => simp
  | cons a t ih =>
    intro hu
    rw [List.map_cons, dictGet]
    by_cases hau : a = u
    · subst hau
      simp
    · rw [if_neg hau]
      refine ih ?_
      rcases List.mem_cons.1 hu with rfl | h
      · exact absurd rfl hau
      · exact h

theorem mem_uniqueNonNullUrls {α : Type} (rows : List (α × Option String)) (u : String) :
    u ∈ uniqueNonNullUrls rows ↔ some u ∈ rows.map Prod.snd := by
  rw [uniqueNonNullUrls, mem_dedupFirst, List.mem_filterMap]
  constructor
  · rintro ⟨r, hr, hru⟩
    exact List.mem_map.2 ⟨r, hr, hru⟩
  · intro h
    rcases List.mem_map.1 h with ⟨r, hr, hru⟩
    exact ⟨r, hr, hru⟩

theorem mapColumn_url_titles {α : Type} (net : String → FetchOutcome)
    (rows : List (α × Option String)) (u : String) (hu : u ∈ uniqueNonNullUrls rows) :
    mapColumn (url_titles_list net rows) (some u) = get_page_title net (some u) := by
  simp only [mapColumn, url_titles_list]
  rw [dictGet_map_self (fun x => get_page_title net (some x)) u _ hu]

theorem mem_enrich_urls {α : Type} {net : String → FetchOutcome}
    {rows : List (α × Option String)} {p : (α × Option String) × Option String}
    (hp : p ∈ enrich_urls_with_titles net rows) :
    p.1 ∈ rows ∧ p.2 = mapColumn (url_titles_list net rows) p.1.2 := by
  rcases List.mem_map.1 hp with ⟨r, hr, rfl⟩
  exact ⟨hr, rfl⟩

/-- C3: a fetch, parse or timeout error on one URL makes the inner
fetch-and-parse computation fail, `get_page_title` recovers it to an absent
title instead of propagating it, every row sharing that URL gets a null
title, and every row with a different URL is still enriched with its own
fetched title. -/
theorem per_url_error_recovered {α : Type} (net : String → FetchOutcome)
    (rows : List (α × Option String)) (u : String)
    (herr : (net u).isErr = true) :
    (fetchParse net u).isOk = false ∧
    get_page_title net (some u) = none ∧
    (∀ p ∈ enrich_urls_with_titles net rows, p.1.2 = some u → p.2 = none) ∧
    (∀ p ∈ enrich_urls_with_titles net rows, ∀ v : String, p.1.2 = some v → v ≠ u →
      p.2 = get_page_title net (some v)) := by
  have hfp : ∃ e, fetchParse net u = Except.error e := by
    cases hnet : net u with
    | success tag =>
      rw [hnet] at herr
      simp [FetchOutcome.isErr] at herr
    | timeout => exact ⟨PyError.timeout, by simp [fetchParse, hnet]⟩
    | httpError => exact ⟨PyError.request, by simp [fetchParse, hnet]⟩
    | parseError => exact ⟨PyError.other, by simp [fetchParse, hnet]⟩
    | otherError => exact ⟨PyError.other, by simp [fetchParse, hnet]⟩
  obtain ⟨e, he⟩ := hfp
  have hgp : get_page_title net (some u) = none := by
    by_cases hue : u.isEmpty = true
    · simp [get_page_title, hue]
    · simp [get_page_title, hue, he]
  refine ⟨by rw [he]; rfl, hgp, ?_, ?_⟩
  · intro p hp hpu
    obtain ⟨hpr, hpe⟩ := mem_enrich_urls hp
    have hu : u ∈ uniqueNonNullUrls rows :=
      (mem_uniqueNonNullUrls rows u).2 (List.mem_map.2 ⟨p.1, hpr, hpu⟩)
    rw [hpe, hpu, mapColumn_url_titles net rows u hu, hgp]
  · intro p hp v hpv hvu
    obtain ⟨hpr, hpe⟩ := mem_enrich_urls hp
    have hv : v ∈ uniqueNonNullUrls rows :=
      (mem_uniqueNonNullUrls rows v).2 (List.mem_map.2 ⟨p.1, hpr, hpv⟩)
    rw [hpe, hpv, mapColumn_url_titles net rows v hv]

/-- C3 witness: a timing-out URL yields a null title on a concrete batch. -/
theorem per_url_error_recovered_witness :
    get_page_title netMixed (some "http://bad") = none :=
  (per_url_error_recovered netMixed trowsFix "http://bad" (by decide)).2.1

/-- C4: the URLs dispatched to the worker pool are exactly the distinct
non-null URLs of the input (each listed once), one fetch is issued per such
URL, and any two rows sharing a URL value receive the identical title. -/
theorem enrich_dedup_and_broadcast {α : Type} (net : String → FetchOutcome)
    (rows : List (α × Option String)) :
    (uniqueNonNullUrls rows).Nodup ∧
    (∀ u : String, u ∈ uniqueNonNullUrls rows ↔ some u ∈ rows.map Prod.snd) ∧
    (url_titles_list net rows).length = (uniqueNonNullUrls rows).length ∧
    (∀ p ∈ enrich_urls_with_titles net rows, ∀ q ∈ enrich_urls_with_titles net rows,
      p.1.2 = q.1.2 → p.2 = q.2) := by
  refine ⟨nodup_dedupFirst _, fun u => mem_uniqueNonNullUrls rows u,
    by rw [url_titles_list, List.length_map], ?_⟩
  intro p hp q hq hpq
  rw [(mem_enrich_urls hp).2, (mem_enrich_urls hq).2, hpq]

/-- C4 witness: on a concrete batch the dispatched URL list has no
duplicates, and two rows sharing a URL get the same (here absent) title. -/
theorem enrich_dedup_and_broadcast_witness :
    (uniqueNonNullUrls trowsFix).Nodup ∧
    ((((0 : Nat), some "http://bad"), (none : Option String)).2 =
      (((2 : Nat), some "http://bad"), (none : Option String)).2) :=
  ⟨(enrich_dedup_and_broadcast netMixed trowsFix).1,
   (enrich_dedup_and_broadcast netMixed trowsFix).2.2.2
     (((0 : Nat), some "http://bad"), none) (by decide)
     (((2 : Nat), some "http://bad"), none) (by decide) rfl⟩

/-! ## Min-max rescaling lemmas -/

theorem listMin_le_init : ∀ t : List ℚ, ∀ c : ℚ, listMin c t ≤ c := by
  intro t
  induction t with
  | nil => intro c; exact le_refl c
  | cons b t ih =>
    intro c
    calc listMin c (b :: t) = listMin (min c b) t := rfl
      _ ≤ min c b := ih (min c b)
      _ ≤ c := min_le_left c b

theorem listMin_le_mem {x : ℚ} : ∀ t : List ℚ, ∀ c : ℚ, x ∈ t → listMin c t ≤ x := by
  intro t
  induction t with
  | nil => intro c h; simp at h
  | cons b t ih =>
    intro c h
    rcases List.mem_cons.1 h with rfl | h
    · calc listMin c (x :: t) = listMin (min c x) t := rfl
        _ ≤ min c x := listMin_le_init t (min c x)
        _ ≤ x := min_le_right c x
    · exact ih (min c b) h

theorem init_le_listMax : ∀ t : List ℚ, ∀ c : ℚ, c ≤ listMax c t := by
  intro t
  induction t with
  | nil => intro c; exact le_refl c
  | cons b t ih =>
    intro c
    calc c ≤ max c b := le_max_left c b
      _ ≤ listMax (max c b) t := ih (max c b)
      _ = listMax c (b :: t) := rfl

theorem mem_le_listMax {x : ℚ} : ∀ t : List ℚ, ∀ c : ℚ, x ∈ t → x ≤ listMax c t := by
  intro t
  induction t with
  | nil => intro c h; simp at h
  | cons b t ih =>
    intro c h
    rcases List.mem_cons.1 h with rfl | h
    · calc x ≤ max c x := le_max_right c x
        _ ≤ listMax (max c x) t := init_le_listMax t (max c x)
        _ = listMax c (x :: t) := rfl
    · exact ih (max c b) h

/-- Every value produced by one min-max rescaled column lies in `[0, 1]`. -/
theorem minmaxCol_mem_unit {xs : List ℚ} {q : ℚ} (h : q ∈ minmaxCol xs) :
    0 ≤ q ∧ q ≤ 1 := by
  match xs with
  | [] => simp [minmaxCol] at h
  | a :: t =>
    rw [minmaxCol] at h
    set lo := listMin a t with hlo
    set hi := listMax a t with hhi
    have hbounds : ∀ x ∈ a :: t, lo ≤ x ∧ x ≤ hi := by
      intro x hx
      rcases List.mem_cons.1 hx with rfl | hx
      · exact ⟨listMin_le_init t x, init_le_listMax t x⟩
      · exact ⟨listMin_le_mem t a hx, mem_le_listMax t a hx⟩
    by_cases hz : hi - lo = 0
    · rw [if_pos hz] at h
      rcases List.mem_map.1 h with ⟨x, hx, rfl⟩
      have hb := hbounds x hx
      have hxlo : x = lo := le_antisymm (by linarith [hb.2]) hb.1
      rw [hxlo]
      norm_num
    · rw [if_neg hz] at h
      rcases List.mem_map.1 h with ⟨x, hx, rfl⟩
      have hb := hbounds x hx
      have hlohi : lo ≤ hi := le_trans (hbounds a (List.mem_cons_self a t)).1
        (hbounds a (List.mem_cons_self a t)).2
      have hpos : 0 < hi - lo := lt_of_le_of_ne (by linarith) (Ne.symm hz)
      constructor
      · exact div_nonneg (by linarith [hb.1]) (le_of_lt hpos)
      · rw [div_le_one hpos]
        linarith [hb.2]

/-! ## Row lookup and assignment lemmas -/

theorem rowGet_rowSet_self (r : List (String × Cell)) (k : String) (v : Cell) :
    rowGet (rowSet r k v) k = some v := by
  rw [rowSet]
  induction r with
  | nil => simp [rowGet]
  | cons p t ih =>
    by_cases hpk : p.1 = k
    · rw [List.filter_cons]
      simp only [hpk]
      simpa using ih
    · rw [List.filter_cons]
      simp only [decide_eq_true_eq]
      rw [if_pos hpk]
      rcases p with ⟨k1, v1⟩
      rw [List.cons_append, rowGet]
      simp only at hpk
      rw [if_neg hpk]
      exact ih

theorem rowGet_rowSet_ne (r : List (String × Cell)) {k k2 : String} (v : Cell)
    (hne : k2 ≠ k) : rowGet (rowSet r k v) k2 = rowGet r k2 := by
  rw [rowSet]
  induction r with
  | nil => simp [rowGet, Ne.symm hne]
  | cons p t ih =>
    rcases p with ⟨k1, v1⟩
    by_cases hpk : k1 = k
    · rw [List.filter_cons]
      simp only [decide_eq_true_eq]
      rw [if_neg (by simp [hpk]), rowGet, if_neg (by rw [hpk]; exact Ne.symm hne)]
      exact ih
    · rw [List.filter_cons]
      simp only [decide_eq_true_eq]
      rw [if_pos hpk, List.cons_append, rowGet, rowGet]
      by_cases h12 : k1 = k2
      · rw [if_pos h12, if_pos h12]
      · rw [if_neg h12, if_neg h12]
        exact ih

theorem rowGet_mem {r : List (String × Cell)} {c : String} {v : Cell}
    (h : rowGet r c = some v) : (c, v) ∈ r := by
  induction r with
  | nil => simp [rowGet] at h
  | cons p t ih =>
    rcases p with ⟨k, w⟩
    rw [rowGet] at h
    by_cases hk : k = c
    · rw [if_pos hk] at h
      injection h with h
      subst hk
      subst h
      exact List.mem_cons_self _ _
    · rw [if_neg hk] at h
      exact List.mem_cons_of_mem _ (ih h)

/-- C8: every `x_2d`/`y_2d` coordinate produced by `generate_embeddings`
lies in `[0, 1]`.  (The min-max rescaling guarantees this for any t-SNE
output, including the degenerate constant-column case, which sklearn
rescales by 1 instead of the zero range.) -/
theorem generate_embeddings_coords_unit (encode : List String → List (List ℚ))
    (tsne : List (List ℚ) → List (ℚ × ℚ)) (df : PDF) (hwf : df.WF) (out : PDF)
    (hout : generate_embeddings encode tsne df = Except.ok out) :
    ∀ r ∈ out.rows,
      (∀ q : ℚ, rowGet r "x_2d" = some (Cell.num q) → 0 ≤ q ∧ q ≤ 1) ∧
      (∀ q : ℚ, rowGet r "y_2d" = some (Cell.num q) → 0 ≤ q ∧ q ≤ 1) := by
  intro r hr
  rw [generate_embeddings] at hout
  by_cases hemp : df.isEmptyDF = true
  · rw [if_pos hemp] at hout
    injection hout with hout
    subst hout
    rw [PDF.isEmptyDF, Bool.or_eq_true] at hemp
    rcases hemp with hemp | hemp
    · rw [List.isEmpty_iff] at hemp
      rw [hemp] at hr
      simp at hr
    · rw [List.isEmpty_iff] at hemp
      constructor
      · intro q hq
        exact absurd (hwf r hr _ (rowGet_mem hq)) (by rw [hemp]; simp)
      · intro q hq
        exact absurd (hwf r hr _ (rowGet_mem hq)) (by rw [hemp]; simp)
  · rw [if_neg hemp] at hout
    by_cases hcol : "url_title" ∉ df.cols
    · rw [if_pos hcol] at hout
      simp at hout
    · rw [if_neg hcol] at hout
      injection hout with hout
      subst hout
      simp only [genBody] at hr
      rcases List.mem_map.1 hr with ⟨⟨p1, qx, qy⟩, hp, rfl⟩
      have hcoord := (List.of_mem_zip hp).2
      rw [rescale2d] at hcoord
      have hx := (List.of_mem_zip hcoord).1
      have hy := (List.of_mem_zip hcoord).2
      constructor
      · intro q hq
        rw [rowGet_rowSet_ne _ _ (by decide), rowGet_rowSet_self] at hq
        have hqq : qx = q := by simpa using hq
        subst hqq
        exact minmaxCol_mem_unit hx
      · intro q hq
        rw [rowGet_rowSet_self] at hq
        have hqq : qy = q := by simpa using hq
        subst hqq
        exact minmaxCol_mem_unit hy

example : (genBody encConst tsneConst dfOneFix).rows = [rowOneFix] := by
  with_unfolding_all decide

/-- C8 witness: the concrete one-row frame produces in-range coordinates. -/
theorem generate_embeddings_coords_unit_witness : (0 : ℚ) ≤ 0 ∧ (0 : ℚ) ≤ 1 :=
  ((generate_embeddings_coords_unit encConst tsneConst dfOneFix
    (by unfold PDF.WF; decide)
    (genBody encConst tsneConst dfOneFix) rfl) rowOneFix
    (by with_unfolding_all decide)).1 0 (by with_unfolding_all decide)

/-- C1 counterexample: on an empty input frame `generate_embeddings` does
not raise a data error — it returns the frame unchanged as a no-op. -/
theorem generate_embeddings_empty_ok :
    generate_embeddings encConst tsneConst dfEmptyFix = Except.ok dfEmptyFix := rfl

/-- C1 amended: `generate_embeddings` returns an empty input unchanged (the
empty-input check fires before the column check and does not raise), and
raises the missing-column `ValueError` exactly on non-empty input lacking
the `url_title` column. -/
theorem generate_embeddings_checks (encode : List String → List (List ℚ))
    (tsne : List (List ℚ) → List (ℚ × ℚ)) (df : PDF) :
    (df.isEmptyDF = true → generate_embeddings encode tsne df = Except.ok df) ∧
    (df.isEmptyDF = false → "url_title" ∉ df.cols →
      generate_embeddings encode tsne df =
        Except.error "DataFrame must contain the url_title column") := by
  constructor
  · intro h
    rw [generate_embeddings, if_pos h]
  · intro h hc
    rw [generate_embeddings, if_neg (by simp [h]), if_pos hc]

/-- C1 witness: both behaviours on concrete frames. -/
theorem generate_embeddings_checks_witness :
    generate_embeddings encConst tsneConst dfEmptyFix = Except.ok dfEmptyFix ∧
    generate_embeddings encConst tsneConst dfNoTitleFix =
      Except.error "DataFrame must contain the url_title column" :=
  ⟨(generate_embeddings_checks encConst tsneConst dfEmptyFix).1 rfl,
   (generate_embeddings_checks encConst tsneConst dfNoTitleFix).2 rfl (by decide)⟩

/-! ## Heap lemmas for the frame-effect claim -/

theorem getD_append_left {α : Type} [Inhabited α] (h l : List α) {i : Nat}
    (hi : i < h.length) : (h ++ l).getD i default = h.getD i default := by
  rw [List.getD_eq_getElem?_getD, List.getD_eq_getElem?_getD,
    List.getElem?_append_left hi]

/-- C10 counterexample: on an empty input frame each of the three
enrichment operations returns the caller's own frame (the same heap index,
`0`), not a new frame with appended columns. -/
theorem enrichment_empty_returns_same_object :
    (filter_democracy_events_prog [dfEmptyFix] 0).1 = 0 ∧
    (enrich_urls_with_titles_prog netTimeout [dfEmptyFix] 0).1 = 0 ∧
    generate_embeddings_prog encConst tsneConst [dfEmptyFix] 0 =
      Except.ok (0, [dfEmptyFix]) :=
  ⟨rfl, rfl, rfl⟩

/-- C10 amended: none of the three enrichment operations ever mutates the
caller's frame (the heap slot of the argument is unchanged in every case,
including the missing-column error path), and on non-empty input each
returns a newly allocated frame (an index at or past the old heap end); on
empty input the input object itself is returned unchanged. -/
theorem enrichment_preserves_caller_frame (net : String → FetchOutcome)
    (encode : List String → List (List ℚ)) (tsne : List (List ℚ) → List (ℚ × ℚ))
    (h : List PDF) (i : Nat) (hi : i < h.length) :
    ((filter_democracy_events_prog h i).2.getD i default = h.getD i default) ∧
    ((enrich_urls_with_titles_prog net h i).2.getD i default = h.getD i default) ∧
    (∀ j h2, generate_embeddings_prog encode tsne h i = Except.ok (j, h2) →
      h2.getD i default = h.getD i default) ∧
    ((h.getD i default).isEmptyDF = false →
      h.length ≤ (filter_democracy_events_prog h i).1 ∧
      h.length ≤ (enrich_urls_with_titles_prog net h i).1 ∧
      (∀ j h2, generate_embeddings_prog encode tsne h i = Except.ok (j, h2) →
        h.length ≤ j)) := by
  by_cases he : (h.getD i default).isEmptyDF = true
  · refine ⟨?_, ?_, ?_, ?_⟩
    · simp only [filter_democracy_events_prog]
      rw [if_pos he]
    · simp only [enrich_urls_with_titles_prog]
      rw [if_pos he]
    · intro j h2 hok
      simp only [generate_embeddings_prog] at hok
      rw [if_pos he] at hok
      injection hok with hok
      injection hok with h1 h2x
      rw [← h2x]
    · intro hne
      rw [he] at hne
      cases hne
  · have hne : ¬(h.getD i default).isEmptyDF = true := he
    refine ⟨?_, ?_, ?_, ?_⟩
    · simp only [filter_democracy_events_prog]
      rw [if_neg hne]
      exact getD_append_left h _ hi
    · simp only [enrich_urls_with_titles_prog]
      rw [if_neg hne]
      exact getD_append_left h _ hi
    · intro j h2 hok
      simp only [generate_embeddings_prog] at hok
      rw [if_neg hne] at hok
      by_cases hc : "url_title" ∉ (h.getD i default).cols
      · rw [if_pos hc] at hok
        cases hok
      · rw [if_neg hc] at hok
        injection hok with hok
        injection hok with h1 h2x
        rw [← h2x]
        exact getD_append_left h _ hi
    · intro _
      refine ⟨?_, ?_, ?_⟩
      · simp only [filter_democracy_events_prog]
        rw [if_neg hne]
        exact Nat.le_succ _
      · simp only [enrich_urls_with_titles_prog]
        rw [if_neg hne]
      · intro j h2 hok
        simp only [generate_embeddings_prog] at hok
        rw [if_neg hne] at hok
        by_cases hc : "url_title" ∉ (h.getD i default).cols
        · rw [if_pos hc] at hok
          cases hok
        · rw [if_neg hc] at hok
          injection hok with hok
          injection hok with h1 h2x
          omega

/-- C10 witness: on a concrete one-frame heap the filter stage leaves the
caller's frame unchanged and returns a fresh frame. -/
theorem enrichment_preserves_caller_frame_witness :
    (filter_democracy_events_prog heapFix 0).2.getD 0 default = heapFix.getD 0 default ∧
    heapFix.length ≤ (filter_democracy_events_prog heapFix 0).1 :=
  ⟨(enrichment_preserves_caller_frame netTimeout encConst tsneConst heapFix 0
      (by decide)).1,
   ((enrichment_preserves_caller_frame netTimeout encConst tsneConst heapFix 0
      (by decide)).2.2.2 (by decide)).1⟩
